import Mathlib

/-!
Verification of the snapshot-diff engine and polling control loop of the
`watcher` repository (radovskyb/watcher).

The repository ships several generations of the watcher implementation; the
polling/classification core described by the specification is the one in
`src/unnamed/part_010` (per-directory file maps, `running` flag,
`ErrDurationTooShort` / `ErrWatcherRunning`, per-cycle max-events cutoff via a
cancel channel).  That version is embedded below in namespace `P10`.  The
older generation in the first half of `src/watcher.go` (flat file map, events
keyed by `os.FileInfo.Name()` for single files, `Event.String`) is embedded in
namespace `V1` for the claims that concern it.

Machine integers are modelled as `Int`/`Nat`; string operations of Go's
`path/filepath` are embedded for cleaned slash-separated paths, the only
shapes the watcher manipulates (watch roots pass through `filepath.Abs`, and
directory keys come from `filepath.Dir` or `filepath.Walk`).
-/

/-- The event operation kinds of `watcher.go` / `part_010` (`Op` constants
`Create`, `Write`, `Remove`, `Rename`, `Chmod`). -/
inductive Op where
  | Create
  | Write
  | Remove
  | Rename
  | Chmod
deriving DecidableEq

/-- The file metadata observed by the watcher: the portion of `os.FileInfo`
that the source consults (`Name`, `Size`, `Mode`, `ModTime`, `IsDir`).
`modTime` is an abstract instant, `mode` the `os.FileMode` bits. -/
structure FInfo where
  name : String
  size : Int
  mode : Nat
  modTime : Int
  isDir : Bool
deriving DecidableEq

/-- An `Event` as in the source: operation, path string and the associated
`os.FileInfo`, which may be absent (`nil` in Go). -/
structure Event where
  op : Op
  path : String
  fileInfo : Option FInfo
deriving DecidableEq

/-- Association-list lookup, mirroring Go map indexing (`m[k]`): the first
entry with the given key.  Go maps have unique keys; uniqueness is assumed as
a `Nodup` hypothesis where a theorem needs it. -/
def lookupKey {α : Type} : List (String × α) → String → Option α
  | [], _ => none
  | (k', v) :: t, k => if k' = k then some v else lookupKey t k

/-- Go map assignment `m[k] = v`: replace the entry for `k`, or append one. -/
def upsertKey {α : Type} : List (String × α) → String → α → List (String × α)
  | [], k, v => [(k, v)]
  | (k', v') :: t, k, v =>
    if k' = k then (k, v) :: t else (k', v') :: upsertKey t k v

/-- Go map deletion `delete(m, k)`. -/
def eraseKey {α : Type} : List (String × α) → String → List (String × α)
  | [], _ => []
  | (k', v') :: t, k => if k' = k then t else (k', v') :: eraseKey t k

/-- `strings.HasPrefix(s, pre)`, computed on the character lists. -/
def listStarts : List Char → List Char → Bool
  | [], _ => true
  | _ :: _, [] => false
  | a :: as, b :: bs => a = b && listStarts as bs

/-- `strings.HasPrefix(s, p)`. -/
def strStarts (s p : String) : Bool := listStarts p.data s.data

/-- `filepath.Split(p)`: everything up to and including the final separator,
and the remainder.  (`Split("/a/b.txt") = ("/a/", "b.txt")`.) -/
def goSplit (p : String) : String × String :=
  let r := p.data.reverse
  (⟨(r.dropWhile (fun c => c ≠ '/')).reverse⟩, ⟨(r.takeWhile (fun c => c ≠ '/')).reverse⟩)

/-- `filepath.Base(p)` for slash-separated paths: strip trailing separators,
then keep the part after the last separator; `""` gives `"."`, an all-slash
path gives `"/"`. -/
def goBase (p : String) : String :=
  if p = "" then "."
  else
    let l := p.data.reverse.dropWhile (fun c => c = '/')
    if l = [] then "/" else ⟨(l.takeWhile (fun c => c ≠ '/')).reverse⟩

/-- `filepath.Dir(p)` for paths without `.`/`..` segments: the `Split` prefix
with trailing separators cleaned off (`Dir("/a/b") = "/a"`, `Dir("b") = "."`,
`Dir("/a") = "/"`). -/
def goDir (p : String) : String :=
  let d := (goSplit p).1.data
  let stripped := (d.reverse.dropWhile (fun c => c = '/')).reverse
  if stripped = [] then (if d = [] then "." else "/") else ⟨stripped⟩

/-- `filepath.Join(d, f)` for a cleaned directory `d` and a bare file name
`f` (no separators, not `"."`/`".."`) — the only shapes produced by the
watcher, whose directory keys come from `filepath.Dir`/`filepath.Walk`. -/
def goJoin (d f : String) : String :=
  if d = "" then f
  else if listStarts ['/'] d.data.reverse then d ++ f
  else d ++ "/" ++ f

/-- A directory listing: file base name to metadata (one inner Go map
`map[string]os.FileInfo`). -/
abbrev Listing := List (String × FInfo)

/-- A snapshot as kept by `part_010`: directory path to listing
(`map[string]map[string]os.FileInfo`). -/
abbrev Snapshot := List (String × Listing)

/-- Go-map well-formedness of a listing: keys are unique. -/
def WFListing (l : Listing) : Prop := (l.map Prod.fst).Nodup

/-- Go-map well-formedness of a snapshot: directory keys unique, and every
listing well-formed. -/
def WFSnap (s : Snapshot) : Prop :=
  (s.map Prod.fst).Nodup ∧ ∀ p ∈ s, WFListing p.2

instance (l : Listing) : Decidable (WFListing l) := by
  unfold WFListing; infer_instance

instance (s : Snapshot) : Decidable (WFSnap s) := by
  unfold WFSnap; exact instDecidableAnd

namespace P10

/-- `p.files[dir]` as read by the event checkers: the listing stored for
`dir`, or the empty listing when the key is absent (a `nil` Go map iterates
and looks up as empty). -/
def dirFiles (s : Snapshot) (d : String) : Listing :=
  (lookupKey s d).getD []

/-- `createEvts` (part_010): the files of the current listing absent from the
previous listing of the same directory. -/
def createEvts (prevD files : Listing) : Listing :=
  files.filter (fun p => (lookupKey prevD p.1).isNone)

/-- `removeEvts` (part_010): the files of the previous listing absent from
the current listing of the same directory. -/
def removeEvts (prevD files : Listing) : Listing :=
  prevD.filter (fun p => (lookupKey files p.1).isNone)

/-- `writeEvts` (part_010): a `Write` event, carrying the old metadata, for
every file present in both listings whose modification time changed. -/
def writeEvts (d : String) (prevD files : Listing) : List Event :=
  prevD.filterMap (fun p =>
    match lookupKey files p.1 with
    | none => none
    | some cur =>
      if cur.modTime ≠ p.2.modTime then
        some ⟨Op.Write, goJoin d p.1, some p.2⟩
      else none)

/-- `chmodEvts` (part_010): a `Chmod` event, carrying the old metadata, for
every file present in both listings whose permission mode changed. -/
def chmodEvts (d : String) (prevD files : Listing) : List Event :=
  prevD.filterMap (fun p =>
    match lookupKey files p.1 with
    | none => none
    | some cur =>
      if cur.mode ≠ p.2.mode then
        some ⟨Op.Chmod, goJoin d p.1, some p.2⟩
      else none)

/-- A rename correlation record (`renameEvt` in part_010): `fromPath`/`toPath`
are the source's `from`/`to` fields (base names within the directory), `info`
the created file's metadata. -/
structure RenameEvt where
  fromPath : String
  toPath : String
  info : FInfo
deriving DecidableEq

/-- `renameEvts` (part_010): every (created, removed) pair of the directory
whose records agree on modification time, size, mode and is-directory flag
becomes a rename correlation `{from := removed, to := created}`. -/
def renameEvts (created removed : Listing) : List RenameEvt :=
  created.flatMap (fun cr =>
    removed.filterMap (fun rm =>
      if cr.2.modTime = rm.2.modTime ∧ cr.2.size = rm.2.size ∧
          cr.2.mode = rm.2.mode ∧ cr.2.isDir = rm.2.isDir then
        some ⟨rm.1, cr.1, cr.2⟩
      else none))

/-- The path string of an emitted rename event:
`fmt.Sprintf("%s -> %s", Join(dir, from), Join(dir, to))`. -/
def renamePath (d : String) (r : RenameEvt) : String :=
  goJoin d r.fromPath ++ " -> " ++ goJoin d r.toPath

/-- The created files still reported as plain creates at the end of the
rename-emission loop: `Start` deletes `rename.to` from the creates map as
each rename event goes out. -/
def createsRemaining (prevD files : Listing) : Listing :=
  (createEvts prevD files).filter (fun c =>
    (renameEvts (createEvts prevD files) (removeEvts prevD files)).all
      (fun r => r.toPath ≠ c.1))

/-- The removed files still reported as plain removes at the end of the
rename-emission loop: `Start` deletes `rename.from` from the removes map as
each rename event goes out. -/
def removesRemaining (prevD files : Listing) : Listing :=
  (removeEvts prevD files).filter (fun c =>
    (renameEvts (createEvts prevD files) (removeEvts prevD files)).all
      (fun r => r.fromPath ≠ c.1))

/-- The events one directory contributes to a cycle, in the emission order of
the dispatch goroutine in `Start` (part_010 lines 623–667): writes, chmods,
renames, then the creates and removes that were not consumed by a rename
(`delete(creates, rename.to)` / `delete(removes, rename.from)`). -/
def classifyDir (d : String) (files prevD : Listing) : List Event :=
  writeEvts d prevD files ++ chmodEvts d prevD files ++
    (renameEvts (createEvts prevD files) (removeEvts prevD files)).map
      (fun r => ⟨Op.Rename, renamePath d r, some r.info⟩) ++
    (createsRemaining prevD files).map
      (fun c => ⟨Op.Create, goJoin d c.1, some c.2⟩) ++
    (removesRemaining prevD files).map
      (fun c => ⟨Op.Remove, goJoin d c.1, some c.2⟩)

/-- One cycle's classified event stream: the dispatch goroutine walks the
current snapshot directory by directory and compares each listing with the
previous snapshot's listing for that directory. -/
def classify (prev cur : Snapshot) : List Event :=
  cur.flatMap (fun p => classifyDir p.1 p.2 (dirFiles prev p.1))

end P10

section LookupLemmas

variable {α : Type}

theorem lookupKey_isSome_of_mem {l : List (String × α)} {k : String} {v : α} :
    (k, v) ∈ l → (lookupKey l k).isSome := by
  induction l with
  | nil => intro h; cases h
  | cons hd t ih =>
    intro h
    obtain ⟨k', v'⟩ := hd
    by_cases hk : k' = k
    · simp [lookupKey, hk]
    · rw [List.mem_cons] at h
      rcases h with h | h
      · rw [Prod.mk.injEq] at h
        exact absurd h.1.symm hk
      · simpa [lookupKey, hk] using ih h

theorem mem_of_lookupKey_eq_some {l : List (String × α)} {k : String} {v : α} :
    lookupKey l k = some v → (k, v) ∈ l := by
  induction l with
  | nil => intro h; simp [lookupKey] at h
  | cons hd t ih =>
    intro h
    obtain ⟨k', v'⟩ := hd
    by_cases hk : k' = k
    · subst hk
      simp only [lookupKey, if_true, eq_self_iff_true, ite_true, Option.some.injEq] at h
      subst h
      exact List.mem_cons_self _ _
    · simp only [lookupKey, if_neg hk] at h
      exact List.mem_cons_of_mem _ (ih h)

theorem lookupKey_eq_none_iff {l : List (String × α)} {k : String} :
    lookupKey l k = none ↔ ∀ v, (k, v) ∉ l := by
  constructor
  · intro h v hv
    have hs := lookupKey_isSome_of_mem hv
    rw [h] at hs
    simp at hs
  · intro h
    cases hl : lookupKey l k with
    | none => rfl
    | some v => exact absurd (mem_of_lookupKey_eq_some hl) (h v)

theorem lookupKey_eq_some_of_mem_nodup {l : List (String × α)} {k : String} {v : α} :
    (l.map Prod.fst).Nodup → (k, v) ∈ l → lookupKey l k = some v := by
  induction l with
  | nil => intro _ h; cases h
  | cons hd t ih =>
    intro hnd h
    obtain ⟨k', v'⟩ := hd
    simp only [List.map_cons, List.nodup_cons] at hnd
    rw [List.mem_cons] at h
    rcases h with h | h
    · rw [Prod.mk.injEq] at h
      obtain ⟨h1, h2⟩ := h
      simp [lookupKey, h1, h2]
    · have hne : k' ≠ k := by
        intro he
        subst he
        exact hnd.1 (List.mem_map.mpr ⟨(k', v), h, rfl⟩)
      simp [lookupKey, hne, ih hnd.2 h]

end LookupLemmas

namespace P10

theorem createEvts_self (l : Listing) : createEvts l l = [] := by
  rw [createEvts, List.filter_eq_nil_iff]
  intro p hp
  have hs := lookupKey_isSome_of_mem (l := l) (k := p.1) (v := p.2) hp
  simp only [Option.isNone_iff_eq_none]
  intro hn
  rw [hn] at hs
  simp at hs

theorem removeEvts_self (l : Listing) : removeEvts l l = [] := by
  rw [removeEvts, List.filter_eq_nil_iff]
  intro p hp
  have hs := lookupKey_isSome_of_mem (l := l) (k := p.1) (v := p.2) hp
  simp only [Option.isNone_iff_eq_none]
  intro hn
  rw [hn] at hs
  simp at hs

theorem writeEvts_self (d : String) (l : Listing) (hwf : WFListing l) :
    writeEvts d l l = [] := by
  rw [writeEvts, List.filterMap_eq_nil_iff]
  intro p hp
  rw [lookupKey_eq_some_of_mem_nodup hwf hp]
  simp

theorem chmodEvts_self (d : String) (l : Listing) (hwf : WFListing l) :
    chmodEvts d l l = [] := by
  rw [chmodEvts, List.filterMap_eq_nil_iff]
  intro p hp
  rw [lookupKey_eq_some_of_mem_nodup hwf hp]
  simp

theorem classifyDir_self (d : String) (l : Listing) (hwf : WFListing l) :
    classifyDir d l l = [] := by
  rw [classifyDir, createsRemaining, removesRemaining, createEvts_self,
    removeEvts_self, writeEvts_self d l hwf, chmodEvts_self d l hwf]
  rfl

end P10

/-- C2 — classifying a snapshot against itself produces no events of any
kind: for every well-formed snapshot `S` (Go maps: unique keys), the cycle's
classified event stream `classify S S` is empty — no Create, Remove, Rename,
Write or Chmod event. -/
theorem c2_classify_self_empty (s : Snapshot) (hwf : WFSnap s) :
    P10.classify s s = [] := by
  rw [P10.classify, List.flatMap_eq_nil_iff]
  intro p hp
  have hdir : P10.dirFiles s p.1 = p.2 := by
    rw [P10.dirFiles, lookupKey_eq_some_of_mem_nodup hwf.1 hp]
    rfl
  rw [hdir]
  exact P10.classifyDir_self p.1 p.2 (hwf.2 p hp)

/-- Witness for C2 at a concrete snapshot. -/
theorem c2_classify_self_empty_witness :
    P10.classify [("/w", [("a.txt", ⟨"a.txt", 3, 420, 7, false⟩)])]
        [("/w", [("a.txt", ⟨"a.txt", 3, 420, 7, false⟩)])] = [] :=
  c2_classify_self_empty _ (by decide)

theorem strAppend_cancel_left {s a b : String} (h : s ++ a = s ++ b) : a = b := by
  have hd : s.data ++ a.data = s.data ++ b.data := by
    have := congrArg String.data h
    simpa [String.data_append] using this
  have hab : a.data = b.data := List.append_cancel_left hd
  cases a
  cases b
  exact congrArg String.mk hab

theorem goJoin_right_inj {d f f' : String} (h : goJoin d f = goJoin d f') : f = f' := by
  unfold goJoin at h
  by_cases hd : d = ""
  · rw [if_pos hd, if_pos hd] at h
    exact h
  · rw [if_neg hd, if_neg hd] at h
    by_cases hs : listStarts ['/'] d.data.reverse = true
    · rw [if_pos hs, if_pos hs] at h
      exact strAppend_cancel_left h
    · rw [if_neg hs, if_neg hs] at h
      exact strAppend_cancel_left h

namespace P10

theorem mem_renameEvts_iff {creates removes : Listing} {t : RenameEvt} :
    t ∈ renameEvts creates removes ↔
      ∃ cr ∈ creates, ∃ rm ∈ removes,
        (cr.2.modTime = rm.2.modTime ∧ cr.2.size = rm.2.size ∧
          cr.2.mode = rm.2.mode ∧ cr.2.isDir = rm.2.isDir) ∧
        t = ⟨rm.1, cr.1, cr.2⟩ := by
  rw [renameEvts, List.mem_flatMap]
  constructor
  · rintro ⟨cr, hcr, hmem⟩
    rw [List.mem_filterMap] at hmem
    obtain ⟨rm, hrm, heq⟩ := hmem
    refine ⟨cr, hcr, rm, hrm, ?_⟩
    split at heq
    · rename_i hcond
      exact ⟨hcond, (Option.some.injEq .. ▸ heq :).symm⟩
    · cases heq
  · rintro ⟨cr, hcr, rm, hrm, hcond, rfl⟩
    refine ⟨cr, hcr, ?_⟩
    rw [List.mem_filterMap]
    exact ⟨rm, hrm, by rw [if_pos hcond]⟩

theorem nodup_split_mid {α : Type} {l1 l2 : List α} {x : α}
    (h : (l1 ++ x :: l2).Nodup) : x ∉ l1 ∧ x ∉ l2 := by
  rw [List.nodup_append] at h
  obtain ⟨_, h2, hd⟩ := h
  rw [List.nodup_cons] at h2
  exact ⟨fun hx => hd hx (List.mem_cons_self x l2), h2.1⟩

/-- The rename correlation of a matching removed/created pair appears exactly
once in `renameEvts` when the creates and removes listings have unique keys
(Go map semantics). -/
theorem renameEvts_count_one
    {creates removes : Listing} {A B : String} {infoA infoB : FInfo}
    (hcnd : (creates.map Prod.fst).Nodup) (hrnd : (removes.map Prod.fst).Nodup)
    (hB : (B, infoB) ∈ creates) (hA : (A, infoA) ∈ removes)
    (hm : infoB.modTime = infoA.modTime ∧ infoB.size = infoA.size ∧
      infoB.mode = infoA.mode ∧ infoB.isDir = infoA.isDir) :
    (renameEvts creates removes).count ⟨A, B, infoB⟩ = 1 := by
  obtain ⟨c1, c2, rfl⟩ := List.append_of_mem hB
  have hkeys : B ∉ c1.map Prod.fst ∧ B ∉ c2.map Prod.fst := by
    rw [List.map_append, List.map_cons] at hcnd
    exact nodup_split_mid hcnd
  have hsplit : renameEvts (c1 ++ (B, infoB) :: c2) removes =
      renameEvts c1 removes ++
        (removes.filterMap (fun rm =>
          if infoB.modTime = rm.2.modTime ∧ infoB.size = rm.2.size ∧
              infoB.mode = rm.2.mode ∧ infoB.isDir = rm.2.isDir then
            some ⟨rm.1, B, infoB⟩
          else none) ++ renameEvts c2 removes) := by
    rw [renameEvts, List.flatMap_append, List.flatMap_cons]
    rfl
  rw [hsplit, List.count_append, List.count_append]
  have hside : ∀ (l : Listing), B ∉ l.map Prod.fst →
      (renameEvts l removes).count ⟨A, B, infoB⟩ = 0 := by
    intro l hl
    rw [List.count_eq_zero]
    intro hmem
    rw [mem_renameEvts_iff] at hmem
    obtain ⟨cr, hcr, rm, _, _, heq⟩ := hmem
    have : cr.1 = B := (congrArg RenameEvt.toPath heq).symm
    exact hl (List.mem_map.mpr ⟨cr, hcr, this⟩)
  rw [hside c1 hkeys.1, hside c2 hkeys.2]
  obtain ⟨r1, r2, rfl⟩ := List.append_of_mem hA
  have hrkeys : A ∉ r1.map Prod.fst ∧ A ∉ r2.map Prod.fst := by
    rw [List.map_append, List.map_cons] at hrnd
    exact nodup_split_mid hrnd
  rw [List.filterMap_append,
    List.filterMap_cons_some (by rw [if_pos hm]), List.count_append]
  have hrside : ∀ (l : Listing), A ∉ l.map Prod.fst →
      (l.filterMap (fun rm =>
        if infoB.modTime = rm.2.modTime ∧ infoB.size = rm.2.size ∧
            infoB.mode = rm.2.mode ∧ infoB.isDir = rm.2.isDir then
          some ⟨rm.1, B, infoB⟩
        else none)).count (⟨A, B, infoB⟩ : RenameEvt) = 0 := by
    intro l hl
    rw [List.count_eq_zero]
    intro hmem
    rw [List.mem_filterMap] at hmem
    obtain ⟨rm, hrm, heq⟩ := hmem
    split at heq
    · have : rm.1 = A := congrArg RenameEvt.fromPath (Option.some.injEq .. ▸ heq :)
      exact hl (List.mem_map.mpr ⟨rm, hrm, this⟩)
    · cases heq
  rw [hrside r1 hrkeys.1, List.count_cons_self, hrside r2 hrkeys.2]

end P10

namespace P10

theorem op_of_mem_writeEvts {d : String} {prevD files : Listing} {e : Event}
    (h : e ∈ writeEvts d prevD files) : e.op = Op.Write := by
  rw [writeEvts, List.mem_filterMap] at h
  obtain ⟨p, _, hp⟩ := h
  split at hp
  · cases hp
  · split at hp
    · injection hp with hp
      rw [← hp]
    · cases hp

theorem op_of_mem_chmodEvts {d : String} {prevD files : Listing} {e : Event}
    (h : e ∈ chmodEvts d prevD files) : e.op = Op.Chmod := by
  rw [chmodEvts, List.mem_filterMap] at h
  obtain ⟨p, _, hp⟩ := h
  split at hp
  · cases hp
  · split at hp
    · injection hp with hp
      rw [← hp]
    · cases hp

/-- Decomposition of a directory's event batch: every event is in exactly one
of the five phase segments, with the phase determined by its operation. -/
theorem mem_classifyDir_cases {d : String} {files prevD : Listing} {e : Event}
    (h : e ∈ classifyDir d files prevD) :
    e ∈ writeEvts d prevD files ∨ e ∈ chmodEvts d prevD files ∨
      (∃ r ∈ renameEvts (createEvts prevD files) (removeEvts prevD files),
        e = ⟨Op.Rename, renamePath d r, some r.info⟩) ∨
      (∃ c ∈ createsRemaining prevD files,
        e = ⟨Op.Create, goJoin d c.1, some c.2⟩) ∨
      (∃ c ∈ removesRemaining prevD files,
        e = ⟨Op.Remove, goJoin d c.1, some c.2⟩) := by
  rw [classifyDir] at h
  simp only [List.append_assoc, List.mem_append, List.mem_map] at h
  rcases h with h | h | h | h | h
  · exact Or.inl h
  · exact Or.inr (Or.inl h)
  · obtain ⟨r, hr, he⟩ := h
    exact Or.inr (Or.inr (Or.inl ⟨r, hr, he.symm⟩))
  · obtain ⟨c, hc, he⟩ := h
    exact Or.inr (Or.inr (Or.inr (Or.inl ⟨c, hc, he.symm⟩)))
  · obtain ⟨c, hc, he⟩ := h
    exact Or.inr (Or.inr (Or.inr (Or.inr ⟨c, hc, he.symm⟩)))

/-- The cycle's stream decomposes around any directory of the current
snapshot: the batch for that directory appears as one contiguous block. -/
theorem classify_decompose {prev cur : Snapshot} {d : String} {files : Listing}
    (h : (d, files) ∈ cur) :
    ∃ pre post, classify prev cur =
      pre ++ classifyDir d files (dirFiles prev d) ++ post := by
  obtain ⟨s1, s2, rfl⟩ := List.append_of_mem h
  refine ⟨s1.flatMap (fun p => classifyDir p.1 p.2 (dirFiles prev p.1)),
    s2.flatMap (fun p => classifyDir p.1 p.2 (dirFiles prev p.1)), ?_⟩
  rw [classify, List.flatMap_append, List.flatMap_cons, List.append_assoc]

end P10

/-- C1 — heuristic rename correlation: if, in one cycle, path `A` was removed
and path `B` was created in the same parent directory `d`, and `B`'s record
matches `A`'s pre-delete record on is-directory flag, size, modification time
and permission mode, then the cycle's classification produces exactly one
rename correlation `{from := A, to := B}` (and the corresponding single
`Rename` event in directory `d`'s batch), and no event of that batch reports
`A` as a plain `Remove` or `B` as a plain `Create`. -/
theorem c1_rename_correlation
    (prev cur : Snapshot) (d A B : String) (files : Listing)
    (infoA infoB : FInfo)
    (hmem : (d, files) ∈ cur)
    (hfw : WFListing files) (hpw : WFListing (P10.dirFiles prev d))
    (hBc : lookupKey files B = some infoB)
    (hBp : lookupKey (P10.dirFiles prev d) B = none)
    (hAp : lookupKey (P10.dirFiles prev d) A = some infoA)
    (hAc : lookupKey files A = none)
    (hm : infoB.modTime = infoA.modTime ∧ infoB.size = infoA.size ∧
      infoB.mode = infoA.mode ∧ infoB.isDir = infoA.isDir) :
    (P10.renameEvts (P10.createEvts (P10.dirFiles prev d) files)
        (P10.removeEvts (P10.dirFiles prev d) files)).count ⟨A, B, infoB⟩ = 1 ∧
    (⟨Op.Rename, P10.renamePath d ⟨A, B, infoB⟩, some infoB⟩ : Event) ∈
      P10.classifyDir d files (P10.dirFiles prev d) ∧
    (∃ pre post, P10.classify prev cur =
      pre ++ P10.classifyDir d files (P10.dirFiles prev d) ++ post) ∧
    (∀ e ∈ P10.classifyDir d files (P10.dirFiles prev d),
      e.op = Op.Create → e.path ≠ goJoin d B) ∧
    (∀ e ∈ P10.classifyDir d files (P10.dirFiles prev d),
      e.op = Op.Remove → e.path ≠ goJoin d A) := by
  have hBcr : (B, infoB) ∈ P10.createEvts (P10.dirFiles prev d) files := by
    rw [P10.createEvts, List.mem_filter]
    exact ⟨mem_of_lookupKey_eq_some hBc, by simp [hBp]⟩
  have hArm : (A, infoA) ∈ P10.removeEvts (P10.dirFiles prev d) files := by
    rw [P10.removeEvts, List.mem_filter]
    exact ⟨mem_of_lookupKey_eq_some hAp, by simp [hAc]⟩
  have hcnd : ((P10.createEvts (P10.dirFiles prev d) files).map Prod.fst).Nodup :=
    ((List.filter_sublist _).map Prod.fst).nodup hfw
  have hrnd : ((P10.removeEvts (P10.dirFiles prev d) files).map Prod.fst).Nodup :=
    ((List.filter_sublist _).map Prod.fst).nodup hpw
  have htmem : (⟨A, B, infoB⟩ : P10.RenameEvt) ∈
      P10.renameEvts (P10.createEvts (P10.dirFiles prev d) files)
        (P10.removeEvts (P10.dirFiles prev d) files) :=
    P10.mem_renameEvts_iff.mpr ⟨(B, infoB), hBcr, (A, infoA), hArm, hm, rfl⟩
  refine ⟨P10.renameEvts_count_one hcnd hrnd hBcr hArm hm, ?_, ?_, ?_, ?_⟩
  · rw [P10.classifyDir]
    exact List.mem_append_left _ (List.mem_append_left _
      (List.mem_append_right _ (List.mem_map.mpr ⟨⟨A, B, infoB⟩, htmem, rfl⟩)))
  · exact P10.classify_decompose hmem
  · intro e he hop hpath
    rcases P10.mem_classifyDir_cases he with h | h | h | h | h
    · rw [P10.op_of_mem_writeEvts h] at hop
      cases hop
    · rw [P10.op_of_mem_chmodEvts h] at hop
      cases hop
    · obtain ⟨r, _, rfl⟩ := h
      cases hop
    · obtain ⟨c, hc, rfl⟩ := h
      have hc1 : c.1 = B := goJoin_right_inj hpath
      rw [P10.createsRemaining, List.mem_filter] at hc
      have hall := hc.2
      rw [List.all_eq_true] at hall
      have := hall ⟨A, B, infoB⟩ htmem
      rw [hc1] at this
      simp at this
    · obtain ⟨c, _, rfl⟩ := h
      cases hop
  · intro e he hop hpath
    rcases P10.mem_classifyDir_cases he with h | h | h | h | h
    · rw [P10.op_of_mem_writeEvts h] at hop
      cases hop
    · rw [P10.op_of_mem_chmodEvts h] at hop
      cases hop
    · obtain ⟨r, _, rfl⟩ := h
      cases hop
    · obtain ⟨c, _, rfl⟩ := h
      cases hop
    · obtain ⟨c, hc, rfl⟩ := h
      have hc1 : c.1 = A := goJoin_right_inj hpath
      rw [P10.removesRemaining, List.mem_filter] at hc
      have hall := hc.2
      rw [List.all_eq_true] at hall
      have := hall ⟨A, B, infoB⟩ htmem
      rw [hc1] at this
      simp at this

/-- Concrete records for the C1 witness: `/w/a` removed, `/w/b` created with
identical size, mode, modification time and is-dir flag. -/
def c1wInfoA : FInfo := ⟨"a", 10, 420, 100, false⟩

def c1wInfoB : FInfo := ⟨"b", 10, 420, 100, false⟩

def c1wList : Listing := [("b", c1wInfoB)]

def c1wPrev : Snapshot := [("/w", [("a", c1wInfoA)])]

def c1wCur : Snapshot := [("/w", c1wList)]

/-- Witness for C1 at the concrete rename `/w/a` → `/w/b`. -/
theorem c1_rename_correlation_witness :
    (P10.renameEvts (P10.createEvts (P10.dirFiles c1wPrev "/w") c1wList)
        (P10.removeEvts (P10.dirFiles c1wPrev "/w") c1wList)).count
      ⟨"a", "b", c1wInfoB⟩ = 1 ∧
    (⟨Op.Rename, P10.renamePath "/w" ⟨"a", "b", c1wInfoB⟩, some c1wInfoB⟩ : Event) ∈
      P10.classifyDir "/w" c1wList (P10.dirFiles c1wPrev "/w") ∧
    (∃ pre post, P10.classify c1wPrev c1wCur =
      pre ++ P10.classifyDir "/w" c1wList (P10.dirFiles c1wPrev "/w") ++ post) ∧
    (∀ e ∈ P10.classifyDir "/w" c1wList (P10.dirFiles c1wPrev "/w"),
      e.op = Op.Create → e.path ≠ goJoin "/w" "b") ∧
    (∀ e ∈ P10.classifyDir "/w" c1wList (P10.dirFiles c1wPrev "/w"),
      e.op = Op.Remove → e.path ≠ goJoin "/w" "a") :=
  c1_rename_correlation c1wPrev c1wCur "/w" "a" "b" c1wList c1wInfoA c1wInfoB
    (by decide) (by decide) (by decide) (by decide) (by decide) (by decide)
    (by decide) (by decide)

namespace P10

/-- The watcher fields guarded by the mutex in part_010: `running`, `names`
(watch root → recursive flag), `files` (the retained previous snapshot),
`ignored`, `ignoreHidden` and `maxEvents`. -/
structure WState where
  running : Bool
  names : List (String × Bool)
  files : Snapshot
  ignored : List String
  ignoreHidden : Bool
  maxEvents : Int
deriving DecidableEq

/-- The synchronous errors of `Start` (part_010): `ErrDurationTooShort` and
`ErrWatcherRunning`. -/
inductive StartError where
  | durationTooShort
  | watcherRunning
deriving DecidableEq

/-- The argument and state checks at the top of `Start` (part_010 lines
587–600); the duration is in nanoseconds (`time.Nanosecond = 1`).  The Go
error paths perform no state mutation, so they return the state unchanged;
the success path sets `running` and enters the polling loop. -/
def startAttempt (d : Int) (w : WState) : Option StartError × WState :=
  if d < 1 then (some StartError.durationTooShort, w)
  else if w.running then (some StartError.watcherRunning, w)
  else (none, {w with running := true})

/-- The per-cycle event cap of `Start`'s inner loop: events are forwarded in
emission order and counted; when the count reaches `maxEvents` (> 0) the
cancel channel is closed and the dispatch goroutine discards the remaining
events of the cycle.  `maxEvents < 1` means no limit. -/
def deliver (evs : List Event) (maxEvents : Int) : List Event :=
  if 0 < maxEvents then evs.take maxEvents.toNat else evs

/-- The post-retrieval portion of one polling cycle: classify the retrieved
snapshot against the stored previous one, deliver up to `maxEvents` events,
and commit the retrieved snapshot (`p.files = fileList`) unconditionally. -/
def runCycle (w : WState) (fileList : Snapshot) : List Event × Snapshot :=
  (deliver (classify w.files fileList) w.maxEvents, fileList)

/-- `RemoveRecursive` (part_010 lines 308–340): delete the name from the
watch roots; look the path up under `filepath.Split`'s directory component;
if absent do nothing more, if a file delete it from its directory's listing,
if a directory delete every snapshot directory having the name as prefix. -/
def removeRecursive (w : WState) (name : String) : WState :=
  let names' := w.names.filter (fun p => p.1 ≠ name)
  let dir := (goSplit name).1
  let file := (goSplit name).2
  match lookupKey (dirFiles w.files dir) file with
  | none => {w with names := names'}
  | some info =>
    if !info.isDir then
      {w with names := names', files := upsertKey w.files dir (eraseKey (dirFiles w.files dir) file)}
    else
      {w with names := names', files := w.files.filter (fun p => ¬ strStarts p.1 name)}

/-- `Remove` (part_010 lines 276–304), identical except that the directory
case deletes only the entry keyed by the split directory component. -/
def removeW (w : WState) (name : String) : WState :=
  let names' := w.names.filter (fun p => p.1 ≠ name)
  let dir := (goSplit name).1
  let file := (goSplit name).2
  match lookupKey (dirFiles w.files dir) file with
  | none => {w with names := names'}
  | some info =>
    if !info.isDir then
      {w with names := names', files := upsertKey w.files dir (eraseKey (dirFiles w.files dir) file)}
    else
      {w with names := names', files := eraseKey w.files dir}

/-- `Ignore` (part_010 lines 345–360) for one path (the variadic form folds
this over its arguments): `RemoveRecursive` the path, then record it in the
ignore set.  Inputs are absolute paths (`filepath.Abs` is the identity on
them). -/
def ignore (w : WState) (path : String) : WState :=
  let w' := removeRecursive w path
  {w' with ignored := w'.ignored ++ [path]}

/-- The outcome the filesystem gives one root's listing
(`p.list` / `p.listRecursive`): a snapshot fragment, a does-not-exist
failure, or any other enumeration failure. -/
inductive ListOutcome where
  | ok (s : Snapshot)
  | notExist
  | otherError

/-- The errors surfaced on the error channel during snapshot aggregation. -/
inductive WErr where
  | watchedFileDeleted
  | other
deriving DecidableEq

/-- Merging one root's listing into the cycle snapshot
(`for k, v := range list { fileList[k] = v }`). -/
def mergeSnap (a b : Snapshot) : Snapshot :=
  b.foldl (fun acc p => upsertKey acc p.1 p.2) a

/-- `retrieveFileList` (part_010 lines 369–408), with the per-root listing
outcome abstracted as `lister`: merge successful listings; on a
does-not-exist failure surface `ErrWatchedFileDeleted` and evict the root
(`RemoveRecursive`/`Remove`); on any other failure surface the error and
keep going.  No outcome stops the aggregation. -/
def retrieveFileList (w : WState) (lister : String → Bool → ListOutcome) :
    WState × Snapshot × List WErr :=
  w.names.foldl (fun acc p =>
    match lister p.1 p.2 with
    | ListOutcome.ok m => (acc.1, mergeSnap acc.2.1 m, acc.2.2)
    | ListOutcome.notExist =>
      (if p.2 then removeRecursive acc.1 p.1 else removeW acc.1 p.1,
        acc.2.1, acc.2.2 ++ [WErr.watchedFileDeleted])
    | ListOutcome.otherError => (acc.1, acc.2.1, acc.2.2 ++ [WErr.other]))
    (w, [], [])

/-- The fate of one iteration of `Start`'s outer polling loop. -/
inductive CycleOutcome where
  | terminated
  | continues (st : WState) (errs : List WErr) (delivered : List Event)

/-- One iteration of the polling loop of `Start` (part_010 lines 608–701):
aggregate the snapshot, then either return because a close signal is pending
(`case <-p.close: return nil` — the loop's only `return`), or dispatch the
cycle's events and commit the aggregated snapshot before sleeping. -/
def cycleStep (closeRequested : Bool) (w : WState)
    (lister : String → Bool → ListOutcome) : CycleOutcome :=
  let r := retrieveFileList w lister
  if closeRequested then CycleOutcome.terminated
  else
    CycleOutcome.continues {r.1 with files := r.2.1} r.2.2
      (runCycle r.1 r.2.1).1

end P10

/-- C4 — any polling interval below one nanosecond (in particular `Start(0)`)
makes `Start` return `ErrDurationTooShort` synchronously: the watcher state
is untouched, the polling loop is not entered, and the interval is not
replaced by a default. -/
theorem c4_interval_too_short (d : Int) (w : P10.WState) (h : d < 1) :
    P10.startAttempt d w = (some P10.StartError.durationTooShort, w) := by
  unfold P10.startAttempt
  rw [if_pos h]

/-- Witness for C4 at `Start(0)`. -/
theorem c4_interval_too_short_witness :
    P10.startAttempt 0 ⟨false, [("/w", true)], [], [], false, 0⟩ =
      (some P10.StartError.durationTooShort,
        ⟨false, [("/w", true)], [], [], false, 0⟩) :=
  c4_interval_too_short 0 _ (by decide)

/-- A running watcher used by the C7 counterexample and witness. -/
def c7wRunning : P10.WState := ⟨true, [("/w", true)], [], [], false, 0⟩

/-- C7 counterexample — the claim says a second `Start` on a running watcher
fails with `ErrWatcherRunning`; but `Start` checks the duration first, so a
second call with interval `0` fails with `ErrDurationTooShort` instead. -/
theorem c7_start_zero_while_running_cex :
    c7wRunning.running = true ∧
    P10.startAttempt 0 c7wRunning ≠
      (some P10.StartError.watcherRunning, c7wRunning) ∧
    P10.startAttempt 0 c7wRunning =
      (some P10.StartError.durationTooShort, c7wRunning) := by
  decide

/-- C7 (amended) — a second `Start` with a valid interval (≥ 1ns) on a
running watcher fails synchronously with `ErrWatcherRunning` and leaves the
watcher state (roots, ignore set, snapshot, running flag) unchanged; an
invalid interval instead fails with `ErrDurationTooShort`, likewise leaving
the state unchanged (see the counterexample). -/
theorem c7_amended_already_running (d : Int) (w : P10.WState)
    (hd : 1 ≤ d) (hr : w.running = true) :
    P10.startAttempt d w = (some P10.StartError.watcherRunning, w) := by
  unfold P10.startAttempt
  have hlt : ¬ d < 1 := by omega
  rw [if_neg hlt, hr]
  rfl

/-- Witness for the amended C7. -/
theorem c7_amended_already_running_witness :
    P10.startAttempt 1 c7wRunning =
      (some P10.StartError.watcherRunning, c7wRunning) :=
  c7_amended_already_running 1 c7wRunning (by decide) (by decide)

/-- C6 — the polling loop never terminates of its own accord: an iteration
of `Start`'s loop returns exactly when a close signal is pending, regardless
of the watcher state and of every root's listing outcome — in particular not
when every listing fails and not when the aggregated snapshot is empty. -/
theorem c6_loop_terminates_only_on_close
    (closeRequested : Bool) (w : P10.WState)
    (lister : String → Bool → P10.ListOutcome) :
    P10.cycleStep closeRequested w lister = P10.CycleOutcome.terminated ↔
      closeRequested = true := by
  unfold P10.cycleStep
  cases closeRequested
  · simp
  · simp

/-- C3 — per-cycle max-events cutoff: when `maxEvents` is a positive `n` and
the cycle classifies more than `n` events, exactly the first `n` events (in
emission order) are delivered, the remainder of the cycle's classified events
is discarded rather than queued, and the retrieved snapshot is still
committed in full as the new previous snapshot. -/
theorem c3_max_events_cutoff (w : P10.WState) (fileList : Snapshot) (n : Int)
    (hmax : w.maxEvents = n) (hn : 0 < n)
    (hlen : n < ((P10.classify w.files fileList).length : Int)) :
    (P10.runCycle w fileList).1 =
      (P10.classify w.files fileList).take n.toNat ∧
    ((P10.runCycle w fileList).1.length : Int) = n ∧
    (P10.runCycle w fileList).2 = fileList := by
  unfold P10.runCycle P10.deliver
  rw [hmax, if_pos hn]
  refine ⟨rfl, ?_, rfl⟩
  rw [List.length_take]
  have h1 : n.toNat ≤ (P10.classify w.files fileList).length := by omega
  have h2 : min n.toNat (P10.classify w.files fileList).length = n.toNat := by
    omega
  rw [h2]
  omega

/-- The C3 witness: five files of directory `/w` change their modification
time in one cycle, so classification yields five `Write` events, and with
`SetMaxEvents(2)` exactly two are delivered while the snapshot is still
committed in full. -/
def c3wPrev : Snapshot :=
  [("/w", [("f1", ⟨"f1", 1, 420, 1, false⟩), ("f2", ⟨"f2", 1, 420, 1, false⟩),
    ("f3", ⟨"f3", 1, 420, 1, false⟩), ("f4", ⟨"f4", 1, 420, 1, false⟩),
    ("f5", ⟨"f5", 1, 420, 1, false⟩)])]

def c3wCur : Snapshot :=
  [("/w", [("f1", ⟨"f1", 1, 420, 2, false⟩), ("f2", ⟨"f2", 1, 420, 2, false⟩),
    ("f3", ⟨"f3", 1, 420, 2, false⟩), ("f4", ⟨"f4", 1, 420, 2, false⟩),
    ("f5", ⟨"f5", 1, 420, 2, false⟩)])]

def c3wState : P10.WState := ⟨true, [("/w", false)], c3wPrev, [], false, 2⟩

/-- Witness for C3: a five-event cycle under `maxEvents = 2`. -/
theorem c3_max_events_cutoff_witness :
    (P10.runCycle c3wState c3wCur).1 =
      (P10.classify c3wState.files c3wCur).take (2 : Int).toNat ∧
    (((P10.runCycle c3wState c3wCur).1.length : Int) = 2) ∧
    (P10.runCycle c3wState c3wCur).2 = c3wCur :=
  c3_max_events_cutoff c3wState c3wCur 2 (by decide) (by decide) (by decide)

/-- The C5 counterexample snapshots: in directory `/w`, file `a` is renamed
to `b` (identical metadata) while file `c` is modified in the same cycle. -/
def c5Prev : Snapshot :=
  [("/w", [("a", ⟨"a", 10, 420, 100, false⟩), ("c", ⟨"c", 3, 420, 50, false⟩)])]

def c5Cur : Snapshot :=
  [("/w", [("b", ⟨"b", 10, 420, 100, false⟩), ("c", ⟨"c", 3, 420, 60, false⟩)])]

/-- C5 counterexample — the dispatch goroutine emits a directory's `Write`
(and `Chmod`) events before its `Rename` events: in this concrete cycle the
classified stream is `[Write /w/c, Rename /w/a -> /w/b]`, so a `Write` of the
cycle precedes a `Rename`, refuting the claim that every `Rename` is emitted
first. -/
theorem c5_write_before_rename_cex :
    (P10.classify c5Prev c5Cur).map Event.op = [Op.Write, Op.Rename] ∧
    ¬ (∀ i j (hi : i < (P10.classify c5Prev c5Cur).length)
        (hj : j < (P10.classify c5Prev c5Cur).length),
        ((P10.classify c5Prev c5Cur).get ⟨i, hi⟩).op = Op.Rename →
        ((P10.classify c5Prev c5Cur).get ⟨j, hj⟩).op = Op.Write → i < j) := by
  refine ⟨by decide, fun h => ?_⟩
  have hlt := h 1 0 (by decide) (by decide) (by decide) (by decide)
  omega

namespace P10

/-- The dispatch phase of an operation within one directory's batch:
writes and chmods first, then renames, then remaining creates and removes. -/
def opPhase : Op → Nat
  | Op.Write => 0
  | Op.Chmod => 0
  | Op.Rename => 1
  | Op.Create => 2
  | Op.Remove => 2

theorem pairwise_le_of_all_eq {l : List Nat} {c : Nat} (h : ∀ x ∈ l, x = c) :
    l.Pairwise (· ≤ ·) := by
  induction l with
  | nil => exact List.Pairwise.nil
  | cons a t ih =>
    refine List.Pairwise.cons ?_ (ih (fun x hx => h x (List.mem_cons_of_mem a hx)))
    intro b hb
    rw [h a (List.mem_cons_self a t), h b (List.mem_cons_of_mem a hb)]

theorem phase_of_mem_rename_seg {d : String} {renames : List RenameEvt} {e : Event}
    (h : e ∈ renames.map (fun r => (⟨Op.Rename, renamePath d r, some r.info⟩ : Event))) :
    opPhase e.op = 1 := by
  rw [List.mem_map] at h
  obtain ⟨r, _, rfl⟩ := h
  rfl

/-- Within one directory's batch the dispatch phases are nondecreasing:
writes/chmods (phase 0), then renames (phase 1), then remaining
creates/removes (phase 2). -/
theorem classifyDir_phases_sorted (d : String) (files prevD : Listing) :
    ((classifyDir d files prevD).map (fun e => opPhase e.op)).Pairwise (· ≤ ·) := by
  rw [classifyDir]
  have hw : ∀ x ∈ (writeEvts d prevD files).map (fun e => opPhase e.op), x = 0 := by
    intro x hx
    rw [List.mem_map] at hx
    obtain ⟨e, he, rfl⟩ := hx
    rw [op_of_mem_writeEvts he]
    rfl
  have hc : ∀ x ∈ (chmodEvts d prevD files).map (fun e => opPhase e.op), x = 0 := by
    intro x hx
    rw [List.mem_map] at hx
    obtain ⟨e, he, rfl⟩ := hx
    rw [op_of_mem_chmodEvts he]
    rfl
  have hr : ∀ x ∈ ((renameEvts (createEvts prevD files) (removeEvts prevD files)).map
      (fun r => (⟨Op.Rename, renamePath d r, some r.info⟩ : Event))).map
        (fun e => opPhase e.op), x = 1 := by
    intro x hx
    rw [List.mem_map] at hx
    obtain ⟨e, he, rfl⟩ := hx
    rw [phase_of_mem_rename_seg he]
  have hcr : ∀ x ∈ ((createsRemaining prevD files).map
      (fun c => (⟨Op.Create, goJoin d c.1, some c.2⟩ : Event))).map
        (fun e => opPhase e.op), x = 2 := by
    intro x hx
    rw [List.mem_map] at hx
    obtain ⟨e, he, rfl⟩ := hx
    rw [List.mem_map] at he
    obtain ⟨c, _, rfl⟩ := he
    rfl
  have hrm : ∀ x ∈ ((removesRemaining prevD files).map
      (fun c => (⟨Op.Remove, goJoin d c.1, some c.2⟩ : Event))).map
        (fun e => opPhase e.op), x = 2 := by
    intro x hx
    rw [List.mem_map] at hx
    obtain ⟨e, he, rfl⟩ := hx
    rw [List.mem_map] at he
    obtain ⟨c, _, rfl⟩ := he
    rfl
  rw [List.map_append, List.map_append, List.map_append, List.map_append]
  rw [List.append_assoc, List.append_assoc, List.append_assoc]
  rw [List.pairwise_append]
  refine ⟨pairwise_le_of_all_eq hw, ?_, ?_⟩
  · rw [List.pairwise_append]
    refine ⟨pairwise_le_of_all_eq hc, ?_, ?_⟩
    · rw [List.pairwise_append]
      refine ⟨pairwise_le_of_all_eq hr, ?_, ?_⟩
      · rw [List.pairwise_append]
        refine ⟨pairwise_le_of_all_eq hcr, pairwise_le_of_all_eq hrm, ?_⟩
        intro x hx y hy
        rw [hcr x hx, hrm y hy]
      · intro x hx y hy
        rw [List.mem_append] at hy
        rw [hr x hx]
        rcases hy with hy | hy
        · rw [hcr y hy]
          omega
        · rw [hrm y hy]
          omega
    · intro x hx y hy
      rw [hc x hx]
      exact Nat.zero_le y
  · intro x hx y hy
    rw [hw x hx]
    exact Nat.zero_le y

theorem get_opPhase {d : String} {files prevD : Listing} (k : Nat)
    (hk : k < (classifyDir d files prevD).length) :
    ((classifyDir d files prevD).map (fun e => opPhase e.op)).get
        ⟨k, by rw [List.length_map]; exact hk⟩ =
      opPhase (((classifyDir d files prevD).get ⟨k, hk⟩).op) := by
  simp [List.get_eq_getElem, List.getElem_map]

end P10

/-- C5 (amended) — the dispatch goroutine handles one directory at a time; a
directory's batch is emitted in the phase order writes, chmods, renames,
remaining creates, remaining removes.  So within a directory's batch every
`Rename` event precedes every remaining `Create`/`Remove` event, but `Write`
and `Chmod` events of the batch precede the `Rename` events (the original
claim that renames come first is refuted by the counterexample), and no
ordering holds across directories. -/
theorem c5_amended_per_dir_order (d : String) (files prevD : Listing)
    (i j : Nat) (hi : i < (P10.classifyDir d files prevD).length)
    (hj : j < (P10.classifyDir d files prevD).length) :
    (((P10.classifyDir d files prevD).get ⟨i, hi⟩).op = Op.Rename →
      (((P10.classifyDir d files prevD).get ⟨j, hj⟩).op = Op.Create ∨
        ((P10.classifyDir d files prevD).get ⟨j, hj⟩).op = Op.Remove) → i < j) ∧
    ((((P10.classifyDir d files prevD).get ⟨i, hi⟩).op = Op.Write ∨
        ((P10.classifyDir d files prevD).get ⟨i, hi⟩).op = Op.Chmod) →
      ((P10.classifyDir d files prevD).get ⟨j, hj⟩).op = Op.Rename → i < j) := by
  have hs := P10.classifyDir_phases_sorted d files prevD
  rw [List.pairwise_iff_get] at hs
  have key : ∀ (a b : Nat) (ha : a < (P10.classifyDir d files prevD).length)
      (hb : b < (P10.classifyDir d files prevD).length), a < b →
      P10.opPhase (((P10.classifyDir d files prevD).get ⟨a, ha⟩).op) ≤
        P10.opPhase (((P10.classifyDir d files prevD).get ⟨b, hb⟩).op) := by
    intro a b ha hb hab
    have := hs ⟨a, by rw [List.length_map]; exact ha⟩
      ⟨b, by rw [List.length_map]; exact hb⟩ hab
    rwa [P10.get_opPhase a ha, P10.get_opPhase b hb] at this
  constructor
  · intro hio hjo
    by_contra hij
    rcases Nat.lt_or_ge j i with hji | hji
    · have hle := key j i hj hi hji
      rw [hio] at hle
      rcases hjo with hjo | hjo <;> rw [hjo] at hle <;>
        simp [P10.opPhase] at hle
    · have : j = i := by omega
      subst this
      rw [hio] at hjo
      rcases hjo with hjo | hjo <;> cases hjo
  · intro hio hjo
    by_contra hij
    rcases Nat.lt_or_ge j i with hji | hji
    · have hle := key j i hj hi hji
      rw [hjo] at hle
      rcases hio with hio | hio <;> rw [hio] at hle <;>
        simp [P10.opPhase] at hle
    · have : j = i := by omega
      subst this
      rw [hjo] at hio
      rcases hio with hio | hio <;> cases hio

/-- The C5-amended witness batch: directory `/w` with one rename `a → b` and
one fresh create `n`, giving the batch `[Rename, Create]`. -/
def c5aFiles : Listing :=
  [("b", ⟨"b", 10, 420, 100, false⟩), ("n", ⟨"n", 7, 420, 200, false⟩)]

def c5aPrevD : Listing := [("a", ⟨"a", 10, 420, 100, false⟩)]

/-- Witness for the amended C5 at indices 0 (a `Rename`) and 1 (a `Create`). -/
theorem c5_amended_per_dir_order_witness :
    ((P10.classifyDir "/w" c5aFiles c5aPrevD).get ⟨0, by decide⟩).op = Op.Rename ∧
    ((P10.classifyDir "/w" c5aFiles c5aPrevD).get ⟨1, by decide⟩).op = Op.Create ∧
    (0 : Nat) < 1 :=
  ⟨by decide, by decide,
    (c5_amended_per_dir_order "/w" c5aFiles c5aPrevD 0 1 (by decide) (by decide)).1
      (by decide) (Or.inl (by decide))⟩

namespace P10

/-- The filesystem operations `list` consults: `os.Stat` (the returned
record's `Name()` is the path's base name) and `ioutil.ReadDir` (entries of a
directory, by base name). -/
structure FS where
  stat : String → Option FInfo
  readDir : String → Option (List FInfo)

/-- The errors `Add` can return (from `os.Stat` or from `list`). -/
inductive AddError where
  | statError
  | listError
deriving DecidableEq

/-- `list` (part_010 lines 132–172): an ignored name yields a nil map (the
caller merges nothing); otherwise stat the name — a plain file is recorded
under its `filepath.Dir` by its base name; a directory is read and its
non-ignored, non-hidden entries are recorded under the directory's own key
(the initially created `fileList[filepath.Dir(name)]` empty entry stays in
the result). -/
def list (w : WState) (fs : FS) (name : String) : Option Snapshot :=
  if name ∈ w.ignored then some []
  else
    match fs.stat name with
    | none => none
    | some st =>
      if !st.isDir then some [(goDir name, [(goBase name, st)])]
      else
        match fs.readDir name with
        | none => none
        | some entries =>
          let kept := entries.filter (fun i =>
            !(decide (goJoin name i.name ∈ w.ignored) ||
              (w.ignoreHidden && strStarts i.name ".")))
          some (upsertKey [(goDir name, [])] name (kept.map (fun i => (i.name, i))))

/-- `Add` (part_010 lines 203–237) for an absolute path: record the name as
a non-recursive watch root, stat it, skip a hidden name when hidden files
are ignored, otherwise merge `list`'s result into the watched files.  Error
returns leave the already-updated roots in place, as the Go method does. -/
def add (w : WState) (fs : FS) (name : String) : Option AddError × WState :=
  let w1 := {w with names := upsertKey w.names name false}
  match fs.stat name with
  | none => (some AddError.statError, w1)
  | some fi =>
    if w1.ignoreHidden && strStarts fi.name "." then (none, w1)
    else
      match list w1 fs name with
      | none => (some AddError.listError, w1)
      | some fl => (none, {w1 with files := mergeSnap w1.files fl})

end P10

/-- The C8 scenario: a single watched file `/a/b.txt`. -/
def c8Rec : FInfo := ⟨"b.txt", 10, 420, 100, false⟩

def c8FS : P10.FS :=
  ⟨fun s => if s = "/a/b.txt" then some c8Rec else none, fun _ => none⟩

def c8W0 : P10.WState := ⟨false, [], [], [], false, 0⟩

def c8W1 : P10.WState := (P10.add c8W0 c8FS "/a/b.txt").2

/-- C8 — the claim (and `Ignore`'s own doc comment, "For files that are
already added, Ignore removes them") requires `Ignore` to evict watched
entries; but `RemoveRecursive` looks the path up under `filepath.Split`'s
directory component, which keeps the trailing separator (`"/a/"`), while the
snapshot keys produced by `list`/`listRecursive` come from `filepath.Dir`
(`"/a"`).  The lookup therefore misses, nothing is evicted, and the ignore
set and the watched files are not disjoint: after `Add("/a/b.txt")` then
`Ignore("/a/b.txt")`, the file's record is still in the watched snapshot. -/
theorem c8_ignore_eviction_fails :
    (P10.add c8W0 c8FS "/a/b.txt").1 = none ∧
    lookupKey (P10.dirFiles c8W1.files "/a") "b.txt" = some c8Rec ∧
    (P10.ignore c8W1 "/a/b.txt").ignored = ["/a/b.txt"] ∧
    (P10.ignore c8W1 "/a/b.txt").files = c8W1.files ∧
    lookupKey (P10.dirFiles (P10.ignore c8W1 "/a/b.txt").files "/a") "b.txt" =
      some c8Rec := by
  decide

/-- Split a character list on `'/'` (used by the `filepath.Clean` model). -/
def splitSlash (l : List Char) : List (List Char) :=
  l.foldr (fun c acc =>
    if c = '/' then [] :: acc
    else match acc with
      | [] => [[c]]
      | h :: t => (c :: h) :: t) [[]]

/-- `filepath.Clean` for slash-separated paths: resolve `.` and `..`
segments, collapse duplicate separators, drop trailing separators; an empty
result renders as `"."` (or `"/"` when absolute). -/
def goClean (p : String) : String :=
  if p = "" then "."
  else
    let abs := strStarts p "/"
    let out := (splitSlash p.data).foldl (fun acc seg =>
      if seg = [] ∨ seg = ['.'] then acc
      else if seg = ['.', '.'] then
        if acc ≠ [] ∧ acc.getLast? ≠ some ['.', '.'] then acc.dropLast
        else if abs then acc else acc ++ [seg]
      else acc ++ [seg]) []
    let body := List.intercalate ['/'] out
    if abs then ⟨'/' :: body⟩
    else if body = [] then "." else ⟨body⟩

/-- `strconv`-style quoting as used by `fmt`'s `%q` verb, faithful for
printable ASCII (escapes the backslash, the double quote and the common
control characters). -/
def goQuoteChar (c : Char) : List Char :=
  if c = '"' then ['\\', '"']
  else if c = '\\' then ['\\', '\\']
  else if c = '\n' then ['\\', 'n']
  else if c = '\t' then ['\\', 't']
  else if c = '\r' then ['\\', 'r']
  else [c]

def goQuote (s : String) : String :=
  ⟨'"' :: (s.data.flatMap goQuoteChar ++ ['"'])⟩

namespace V1

/-- `Op.String` of the first-generation watcher (`watcher.go` lines 36–50):
the `ops` table maps the five `Op` constants to their names (the
`"UNRECOGNIZED OP"` fallback is unreachable for the five constants, the only
inhabitants of the embedded `Op`). -/
def opString : Op → String
  | Op.Create => "CREATE"
  | Op.Write => "WRITE"
  | Op.Remove => "REMOVE"
  | Op.Rename => "RENAME"
  | Op.Chmod => "CHMOD"

/-- `Event.String` (`watcher.go` lines 74–83): with a file record present it
formats `"%s %q %s [%s]"` from the path type, the record's name, the op and
the path; with a nil `os.FileInfo` it returns `"INVALID EVENT"` without
touching the record. -/
def eventString (e : Event) : String :=
  match e.fileInfo with
  | some fi =>
    (if fi.isDir then "DIRECTORY" else "FILE") ++ " " ++ goQuote fi.name ++
      " " ++ opString e.op ++ " [" ++ e.path ++ "]"
  | none => "INVALID EVENT"

/-- The option bits of `watcher.go` (`NonRecursive = 1 << 0`,
`IgnoreDotFiles = 1 << 1`). -/
def NonRecursive : Nat := 1

def IgnoreDotFiles : Nat := 2

/-- `hasOption` (`watcher.go` lines 449–456): bitwise intersection with any
element of the option slice. -/
def hasOption (options : List Nat) (o : Nat) : Bool :=
  options.any (fun x => o.land x ≠ 0)

/-- A filesystem subtree as enumerated by `filepath.Walk`: a node's path,
its metadata and its children (files have no children). -/
inductive FSTree where
  | node (path : String) (info : FInfo) (children : List FSTree)

mutual

/-- The walk callback of `ListFiles` (`watcher.go` lines 506–524): an
ignored or (optionally) dot-named entry is skipped, pruning the subtree of a
directory (`filepath.SkipDir`); otherwise the path is recorded and the walk
descends. -/
def walkTree (ign : List String) (dot : Bool) : FSTree → List (String × FInfo)
  | FSTree.node p i cs =>
    if p ∈ ign ∨ (dot ∧ strStarts i.name ".") then []
    else (p, i) :: walkForest ign dot cs

def walkForest (ign : List String) (dot : Bool) : List FSTree → List (String × FInfo)
  | [] => []
  | t :: ts => walkTree ign dot t ++ walkForest ign dot ts

end

/-- The filesystem operations the first-generation watcher consults:
`os.Stat` (record name = base name), `Readdir` entries of a directory, the
`filepath.Walk` enumeration of a subtree, and `filepath.Abs` (consulted only
for `"."`/`".."`). -/
structure FS where
  stat : String → Option FInfo
  readDir : String → Option (List FInfo)
  walk : String → Option FSTree
  abs : String → Option String

/-- `ListFiles` (`watcher.go` lines 461–527): nil for an ignored root;
otherwise `Clean` the name, then either the shallow listing (root plus
non-dot children, keyed by `Join(name, base)`) in `NonRecursive` mode, or
the pruned walk of the subtree. -/
def listFiles (name : String) (ignoredPaths : List String)
    (options : List Nat) (fs : FS) : Option (List (String × FInfo)) :=
  if name ∈ ignoredPaths then some []
  else
    let nm := goClean name
    let ignoreDot := hasOption options IgnoreDotFiles
    if hasOption options NonRecursive then
      match fs.stat nm with
      | none => none
      | some info =>
        if !info.isDir && ignoreDot && strStarts nm "." then some []
        else if !info.isDir then some [(nm, info)]
        else
          match fs.readDir nm with
          | none => none
          | some entries =>
            some ((nm, info) ::
              (entries.filter (fun i => !(ignoreDot && strStarts i.name "."))).map
                (fun i => (goJoin nm i.name, i)))
    else
      match fs.walk nm with
      | none => none
      | some t => some (walkTree ignoredPaths ignoreDot t)

/-- The errors (and the one runtime panic) of `Add`/`Remove`. -/
inductive VErr where
  | absError
  | statError
  | listError
  | panicked
deriving DecidableEq

/-- The first-generation watcher state (`watcher.go` lines 86–97): the flat
watched-file map, the ignore set, the root names and the options. -/
structure Watcher where
  files : List (String × FInfo)
  ignored : List String
  names : List String
  options : List Nat
deriving DecidableEq

/-- `Add` (`watcher.go` lines 182–223): resolve `"."`/`".."` through
`filepath.Abs`, append the name to the roots, stat it; a non-directory that
is not ignored is stored under `fInfo.Name()` — the base name — and
everything else goes through `ListFiles`.  Error returns keep the
already-appended root, as the Go method does. -/
def add (w : Watcher) (fs : FS) (name : String) : Option VErr × Watcher :=
  match (if name = "." ∨ name = ".." then fs.abs name else some name) with
  | none => (some VErr.absError, w)
  | some nm =>
    let w1 := {w with names := w.names ++ [nm]}
    match fs.stat nm with
    | none => (some VErr.statError, w1)
    | some fi =>
      if !fi.isDir ∧ nm ∉ w1.ignored then
        (none, {w1 with files := upsertKey w1.files fi.name fi})
      else
        match listFiles nm w1.ignored w1.options fs with
        | none => (some VErr.listError, w1)
        | some fl =>
          (none, {w1 with files := fl.foldl (fun acc p => upsertKey acc p.1 p.2) w1.files})

/-- The names-eviction loop of `Remove` (`watcher.go` lines 238–242):
`for i := range w.names` fixes the iteration count at the original length
while the body re-slices `w.names`, so an index can run past the shrunk
slice — a runtime panic, modelled as `none`.  `fuel` is the number of
remaining iterations. -/
def namesLoopGo (fuel : Nat) (i : Nat) (cur : List String) (name : String) :
    Option (List String) :=
  match fuel with
  | 0 => some cur
  | f + 1 =>
    if hi : i < cur.length then
      namesLoopGo f (i + 1)
        (if cur.get ⟨i, hi⟩ = name then cur.eraseIdx i else cur) name
    else none

def namesLoop (names : List String) (name : String) : Option (List String) :=
  namesLoopGo names.length 0 names name

/-- `Remove` (`watcher.go` lines 227–272): drop the name from the roots,
stat it; a non-directory is deleted from the file map under `fInfo.Name()` —
the base name; a directory's `ListFiles` keys are deleted one by one. -/
def remove (w : Watcher) (fs : FS) (name : String) : Option VErr × Watcher :=
  match (if name = "." ∨ name = ".." then fs.abs name else some name) with
  | none => (some VErr.absError, w)
  | some nm =>
    match namesLoop w.names nm with
    | none => (some VErr.panicked, w)
    | some ns =>
      let w1 := {w with names := ns}
      match fs.stat nm with
      | none => (some VErr.statError, w1)
      | some fi =>
        if !fi.isDir then (none, {w1 with files := eraseKey w1.files fi.name})
        else
          match listFiles nm w1.ignored w1.options fs with
          | none => (some VErr.listError, w1)
          | some fl =>
            (none, {w1 with files := fl.foldl (fun acc p => eraseKey acc p.1) w1.files})

end V1

/-- C9 — formatting an event whose `os.FileInfo` is nil is safe: for every
operation and path, `Event.String` returns the fixed string
`"INVALID EVENT"` and never consults the missing record. -/
theorem c9_event_string_nil (op : Op) (path : String) :
    V1.eventString ⟨op, path, none⟩ = "INVALID EVENT" := rfl

theorem eraseIdx_append_last (l : List String) (p : String) :
    (l ++ [p]).eraseIdx l.length = l := by
  induction l with
  | nil => rfl
  | cons a t ih =>
    show a :: (t ++ [p]).eraseIdx t.length = a :: t
    rw [ih]

theorem lookupKey_upsertKey_ne {α : Type} {l : List (String × α)} {k k' : String}
    {v : α} (h : k ≠ k') : lookupKey (upsertKey l k v) k' = lookupKey l k' := by
  induction l with
  | nil => simp [upsertKey, lookupKey, h]
  | cons hd t ih =>
    obtain ⟨a, b⟩ := hd
    by_cases hak : a = k
    · subst hak
      simp [upsertKey, lookupKey, h]
    · simp [upsertKey, lookupKey, hak, ih]

namespace V1

theorem namesLoopGo_spec (fuel : Nat) :
    ∀ (i : Nat) (l : List String) (p : String), p ∉ l →
      fuel + i = l.length + 1 → i ≤ l.length →
      namesLoopGo fuel i (l ++ [p]) p = some l := by
  induction fuel with
  | zero =>
    intro i l p _ hfi hi
    omega
  | succ f ih =>
    intro i l p hp hfi hi
    have hlen : i < (l ++ [p]).length := by
      rw [List.length_append]
      simpa using Nat.lt_succ_of_le hi
    rw [namesLoopGo, dif_pos hlen]
    rcases Nat.lt_or_ge i l.length with hil | hil
    · have hget : (l ++ [p]).get ⟨i, hlen⟩ = l.get ⟨i, hil⟩ := by
        simp [List.get_eq_getElem, List.getElem_append_left hil]
      have hne : (l ++ [p]).get ⟨i, hlen⟩ ≠ p := by
        rw [hget]
        intro he
        exact hp (he ▸ List.get_mem l i hil)
      rw [if_neg hne]
      exact ih (i + 1) l p hp (by omega) (by omega)
    · have hil' : i = l.length := by omega
      subst hil'
      have hget : (l ++ [p]).get ⟨l.length, hlen⟩ = p := by
        simp [List.get_eq_getElem, List.getElem_append_right (Nat.le_refl l.length)]
      rw [if_pos hget, eraseIdx_append_last]
      have hf : f = 0 := by omega
      subst hf
      rfl

theorem namesLoop_append_last {l : List String} {p : String} (h : p ∉ l) :
    namesLoop (l ++ [p]) p = some l := by
  rw [namesLoop, List.length_append]
  exact namesLoopGo_spec (l.length + 1) 0 l p h (by omega) (by omega)

end V1

/-- C10 — the first-generation watcher keys single files by base name: for
an existing non-directory path `p` (not `"."`/`".."`, not ignored, not yet a
root), `Add(p)` succeeds and stores the record in the watched-file map under
`fInfo.Name()` — the base name of `p` — not under `p` itself, and a
subsequent `Remove(p)` succeeds and deletes exactly that base-name key. -/
theorem c10_add_remove_base_name_key (w : V1.Watcher) (fs : V1.FS)
    (p : String) (fi : FInfo)
    (h1 : p ≠ ".") (h2 : p ≠ "..")
    (hstat : fs.stat p = some fi) (hdir : fi.isDir = false)
    (hign : p ∉ w.ignored) (hname : fi.name = goBase p) (hroot : p ∉ w.names) :
    (V1.add w fs p).1 = none ∧
    (V1.add w fs p).2.files = upsertKey w.files (goBase p) fi ∧
    (goBase p ≠ p → lookupKey w.files p = none →
      lookupKey (V1.add w fs p).2.files p = none) ∧
    (V1.remove (V1.add w fs p).2 fs p).1 = none ∧
    (V1.remove (V1.add w fs p).2 fs p).2.files =
      eraseKey (V1.add w fs p).2.files (goBase p) := by
  have hcond : ¬(p = "." ∨ p = "..") := by
    rintro (h | h)
    exacts [h1 h, h2 h]
  have hadd : V1.add w fs p =
      (none, { w with names := w.names ++ [p], files := upsertKey w.files (goBase p) fi }) := by
    simp [V1.add, hcond, hstat, hdir, hign, hname]
  have hrem : V1.remove (V1.add w fs p).2 fs p =
      (none, { w with names := w.names, files := eraseKey (upsertKey w.files (goBase p) fi) (goBase p) }) := by
    rw [hadd]
    simp [V1.remove, hcond, hstat, hdir, hname,
      V1.namesLoop_append_last hroot]
  refine ⟨by rw [hadd], by rw [hadd], ?_, by rw [hrem], by rw [hrem, hadd]⟩
  intro hbp hnone
  rw [hadd]
  show lookupKey (upsertKey w.files (goBase p) fi) p = none
  rw [lookupKey_upsertKey_ne hbp]
  exact hnone

/-- The C10 witness scenario: a fresh watcher and a filesystem containing
the single file `/tmp/f.txt`. -/
def c10wRec : FInfo := ⟨"f.txt", 5, 420, 7, false⟩

def c10wFS : V1.FS :=
  ⟨fun s => if s = "/tmp/f.txt" then some c10wRec else none,
    fun _ => none, fun _ => none, fun _ => none⟩

def c10wW : V1.Watcher := ⟨[], [], [], []⟩

/-- Witness for C10: after `Add("/tmp/f.txt")` the watched-file map is keyed
by `"f.txt"`, not by `"/tmp/f.txt"`, and `Remove("/tmp/f.txt")` deletes that
base-name key. -/
theorem c10_add_remove_base_name_key_witness :
    (V1.add c10wW c10wFS "/tmp/f.txt").1 = none ∧
    (V1.add c10wW c10wFS "/tmp/f.txt").2.files =
      upsertKey c10wW.files (goBase "/tmp/f.txt") c10wRec ∧
    (goBase "/tmp/f.txt" ≠ "/tmp/f.txt" →
      lookupKey c10wW.files "/tmp/f.txt" = none →
      lookupKey (V1.add c10wW c10wFS "/tmp/f.txt").2.files "/tmp/f.txt" = none) ∧
    (V1.remove (V1.add c10wW c10wFS "/tmp/f.txt").2 c10wFS "/tmp/f.txt").1 = none ∧
    (V1.remove (V1.add c10wW c10wFS "/tmp/f.txt").2 c10wFS "/tmp/f.txt").2.files =
      eraseKey (V1.add c10wW c10wFS "/tmp/f.txt").2.files (goBase "/tmp/f.txt") :=
  c10_add_remove_base_name_key c10wW c10wFS "/tmp/f.txt" c10wRec
    (by decide) (by decide) (by decide) (by decide) (by decide) (by decide)
    (by decide)
